import Mathlib

/-!
# SoulJournal — verification of the journal store (`src/hooks/useJournalStorage.ts`)

A shallow embedding of the client-side journal store of the SoulJournal
repository.  JavaScript `Date` values are modelled as `Nat` milliseconds since
the Unix epoch; the platform's `Date.prototype.toISOString` /
`new Date(isoString)` pair is modelled by the executable codec below
(`millisToISO` / `parseISO`), following ECMA-262 (`YearFromTime`,
`MonthFromTime`, `DateFromTime`, `MakeDay`, `MakeTime`) restricted to
instants at or after the epoch whose year has at most four digits — the range
in which `toISOString` uses the plain `YYYY-MM-DDTHH:mm:ss.sssZ` format.
-/

namespace SoulJournal

/-! ## Calendar arithmetic (ECMA-262 §21.4.1) -/

/-- ECMA-262 `InLeapYear`: Gregorian leap-year predicate. -/
def isLeap (y : Nat) : Bool :=
  (y % 4 == 0 && y % 100 != 0) || y % 400 == 0

/-- ECMA-262 `DaysInYear`. -/
def daysInYear (y : Nat) : Nat :=
  if isLeap y then 366 else 365

/-- Day number of 1 January of year `1970 + n`, counted from the epoch:
the cumulative sum of the year lengths since 1970 (the value of ECMA-262
`DayFromYear` for years at or after 1970). -/
def dayFromYearAux : Nat → Nat
  | 0 => 0
  | n + 1 => dayFromYearAux n + daysInYear (1970 + n)

/-- ECMA-262 `DayFromYear` for `y ≥ 1970`. -/
def dayFromYear (y : Nat) : Nat :=
  dayFromYearAux (y - 1970)

/-- Bounded search for ECMA-262 `YearFromTime`: starting from year `y`,
advance while the next year still starts at or before day `z`. -/
def yearFromDayAux : Nat → Nat → Nat → Nat
  | 0, y, _ => y
  | fuel + 1, y, z => if dayFromYear (y + 1) ≤ z then yearFromDayAux fuel (y + 1) z else y

/-- ECMA-262 `YearFromTime` (on day counts): the largest `y` with
`dayFromYear y ≤ z`. -/
def yearFromDay (z : Nat) : Nat :=
  yearFromDayAux (z + 1) 1970 z

/-- Days strictly before month `m` (1–12) in a year, per the ECMA-262
`MonthFromTime` table; `leap` adds the 29 February day. -/
def daysBeforeMonth (leap : Bool) (m : Nat) : Nat :=
  let L := if leap then 1 else 0
  match m with
  | 1 => 0 | 2 => 31 | 3 => 59 + L | 4 => 90 + L | 5 => 120 + L | 6 => 151 + L
  | 7 => 181 + L | 8 => 212 + L | 9 => 243 + L | 10 => 273 + L | 11 => 304 + L
  | _ => 334 + L

/-- ECMA-262 `MonthFromTime` on a 0-based day-within-year `r`. -/
def monthFromDayOfYear (leap : Bool) (r : Nat) : Nat :=
  let L := if leap then 1 else 0
  if r < 31 then 1 else if r < 59 + L then 2 else if r < 90 + L then 3
  else if r < 120 + L then 4 else if r < 151 + L then 5 else if r < 181 + L then 6
  else if r < 212 + L then 7 else if r < 243 + L then 8 else if r < 273 + L then 9
  else if r < 304 + L then 10 else if r < 334 + L then 11 else 12

/-- Calendar fields `(year, month, day)` of a day count since the epoch
(ECMA-262 `YearFromTime`/`MonthFromTime`/`DateFromTime`). -/
def civilFromDays (z : Nat) : Nat × Nat × Nat :=
  let y := yearFromDay z
  let r := z - dayFromYear y
  let m := monthFromDayOfYear (isLeap y) r
  (y, m, r - daysBeforeMonth (isLeap y) m + 1)

/-- ECMA-262 `MakeDay`: day count since the epoch of calendar fields. -/
def daysFromCivil (y m d : Nat) : Nat :=
  dayFromYear y + daysBeforeMonth (isLeap y) m + (d - 1)

theorem daysInYear_bounds (y : Nat) : 365 ≤ daysInYear y ∧ daysInYear y ≤ 366 := by
  simp only [daysInYear]
  split <;> omega

theorem dayFromYearAux_succ (n : Nat) :
    dayFromYearAux (n + 1) = dayFromYearAux n + daysInYear (1970 + n) := rfl

theorem dayFromYear_succ (y : Nat) (hy : 1970 ≤ y) :
    dayFromYear (y + 1) = dayFromYear y + daysInYear y := by
  have h1 : y + 1 - 1970 = (y - 1970) + 1 := by omega
  have h2 : 1970 + (y - 1970) = y := by omega
  show dayFromYearAux (y + 1 - 1970) = dayFromYearAux (y - 1970) + daysInYear y
  rw [h1, dayFromYearAux_succ, h2]

theorem dayFromYearAux_lower (n : Nat) : 365 * n ≤ dayFromYearAux n := by
  induction n with
  | zero => simp [dayFromYearAux]
  | succ k ih =>
      have hb := daysInYear_bounds (1970 + k)
      simp only [dayFromYearAux]
      omega

theorem dayFromYear_lower (y : Nat) : 365 * (y - 1970) ≤ dayFromYear y :=
  dayFromYearAux_lower (y - 1970)

theorem yearFromDayAux_spec (z : Nat) : ∀ (fuel y : Nat), 1970 ≤ y →
    dayFromYear y ≤ z → z + 1970 < y + fuel →
    1970 ≤ yearFromDayAux fuel y z ∧
    dayFromYear (yearFromDayAux fuel y z) ≤ z ∧
    z < dayFromYear (yearFromDayAux fuel y z + 1) := by
  intro fuel
  induction fuel with
  | zero =>
      intro y hy hle hf
      have hlow := dayFromYear_lower y
      simp only [yearFromDayAux]
      omega
  | succ n ih =>
      intro y hy hle hf
      simp only [yearFromDayAux]
      by_cases h : dayFromYear (y + 1) ≤ z
      · simp only [h, if_true]
        exact ih (y + 1) (by omega) h (by omega)
      · simp only [h, if_false]
        exact ⟨hy, hle, by omega⟩

theorem yearFromDay_spec (z : Nat) :
    1970 ≤ yearFromDay z ∧ dayFromYear (yearFromDay z) ≤ z ∧
    z < dayFromYear (yearFromDay z + 1) := by
  have h0 : dayFromYear 1970 = 0 := rfl
  simp only [yearFromDay]
  exact yearFromDayAux_spec z (z + 1) 1970 (by omega) (by omega) (by omega)


set_option maxHeartbeats 4000000 in
theorem daysFromCivil_civilFromDays (z y m d : Nat)
    (h : civilFromDays z = (y, m, d)) :
    daysFromCivil y m d = z ∧ 1 ≤ m ∧ m ≤ 12 ∧ 1 ≤ d ∧ d ≤ 31 ∧ 1970 ≤ y := by
  obtain ⟨hy1970, hlo, hhi⟩ := yearFromDay_spec z
  have hsucc := dayFromYear_succ (yearFromDay z) hy1970
  simp only [civilFromDays, Prod.mk.injEq] at h
  obtain ⟨hy, hm, hd⟩ := h
  rw [hy] at hy1970 hlo hhi hsucc hm hd
  rw [hm] at hd
  simp only [daysFromCivil]
  cases hL : isLeap y
  case false =>
    simp only [daysInYear, hL, Bool.false_eq_true, if_false] at hsucc
    simp only [monthFromDayOfYear, hL, Bool.false_eq_true, if_false] at hm
    simp only [hL, Bool.false_eq_true, if_false] at hd ⊢
    split_ifs at hm
    all_goals subst hm
    all_goals simp only [daysBeforeMonth, Bool.false_eq_true, if_false] at hd ⊢
    all_goals omega
  case true =>
    simp only [daysInYear, hL, if_true] at hsucc
    simp only [monthFromDayOfYear, hL, if_true] at hm
    simp only [hL, if_true] at hd ⊢
    split_ifs at hm
    all_goals subst hm
    all_goals simp only [daysBeforeMonth, if_true] at hd ⊢
    all_goals omega


/-! ## Epoch milliseconds ↔ time fields (ECMA-262 §21.4.1) -/

/-- Time fields `(year, month, day, hour, minute, second, millisecond)` of an
epoch-millisecond instant (ECMA-262 `HourFromTime`, `MinFromTime`,
`SecFromTime`, `msFromTime` plus the calendar fields). -/
def fieldsOfMillis (t : Nat) : Nat × Nat × Nat × Nat × Nat × Nat × Nat :=
  let c := civilFromDays (t / 86400000)
  (c.1, c.2.1, c.2.2, t / 3600000 % 24, t / 60000 % 60, t / 1000 % 60, t % 1000)

/-- ECMA-262 `MakeDate` ∘ `MakeTime` ∘ `MakeDay`: epoch milliseconds of time
fields. -/
def millisOfFields (y mo d h mi s ms : Nat) : Nat :=
  daysFromCivil y mo d * 86400000 + h * 3600000 + mi * 60000 + s * 1000 + ms

theorem millisOfFields_fieldsOfMillis (t y mo d : Nat)
    (h : civilFromDays (t / 86400000) = (y, mo, d)) :
    millisOfFields y mo d (t / 3600000 % 24) (t / 60000 % 60) (t / 1000 % 60)
      (t % 1000) = t := by
  obtain ⟨hday, -⟩ := daysFromCivil_civilFromDays _ _ _ _ h
  simp only [millisOfFields]
  rw [hday]
  omega



/-! ## ISO-8601 printing and parsing (the `Date` string boundary) -/

/-- Fixed-width two-digit zero-padded decimal digits of `n < 100`. -/
def pad2 (n : Nat) : List Char :=
  [Nat.digitChar (n / 10), Nat.digitChar (n % 10)]

/-- Fixed-width three-digit zero-padded decimal digits of `n < 1000`. -/
def pad3 (n : Nat) : List Char :=
  [Nat.digitChar (n / 100), Nat.digitChar (n / 10 % 10), Nat.digitChar (n % 10)]

/-- Fixed-width four-digit zero-padded decimal digits of `n < 10000`. -/
def pad4 (n : Nat) : List Char :=
  [Nat.digitChar (n / 1000), Nat.digitChar (n / 100 % 10), Nat.digitChar (n / 10 % 10),
    Nat.digitChar (n % 10)]

/-- Model of `Date.prototype.toISOString` for instants at or after the epoch
with a four-digit year: `YYYY-MM-DDTHH:mm:ss.sssZ`. -/
def millisToISO (t : Nat) : String :=
  let f := fieldsOfMillis t
  String.mk (pad4 f.1 ++ '-' :: pad2 f.2.1 ++ '-' :: pad2 f.2.2.1 ++
    'T' :: pad2 f.2.2.2.1 ++ ':' :: pad2 f.2.2.2.2.1 ++ ':' :: pad2 f.2.2.2.2.2.1 ++
    '.' :: pad3 f.2.2.2.2.2.2 ++ ['Z'])

/-- Decimal value of an ASCII digit character. -/
def digit? (c : Char) : Option Nat :=
  if '0' ≤ c ∧ c ≤ '9' then some (c.toNat - 48) else none

/-- Read exactly two digit characters as a number. -/
def read2 : List Char → Option (Nat × List Char)
  | c1 :: c2 :: rest =>
    match digit? c1, digit? c2 with
    | some d1, some d2 => some (d1 * 10 + d2, rest)
    | _, _ => none
  | _ => none

/-- Read exactly three digit characters as a number. -/
def read3 : List Char → Option (Nat × List Char)
  | c1 :: c2 :: c3 :: rest =>
    match digit? c1, digit? c2, digit? c3 with
    | some d1, some d2, some d3 => some (d1 * 100 + d2 * 10 + d3, rest)
    | _, _, _ => none
  | _ => none

/-- Read exactly four digit characters as a number. -/
def read4 : List Char → Option (Nat × List Char)
  | c1 :: c2 :: c3 :: c4 :: rest =>
    match digit? c1, digit? c2, digit? c3, digit? c4 with
    | some d1, some d2, some d3, some d4 => some (d1 * 1000 + d2 * 100 + d3 * 10 + d4, rest)
    | _, _, _, _ => none
  | _ => none

/-- Consume one expected character. -/
def expectChar (c : Char) : List Char → Option (List Char)
  | x :: rest => if x = c then some rest else none
  | [] => none


/-- Final step of the ISO parser: end of input plus the grammar's value-range
checks, then ECMA-262 `MakeDay`/`MakeTime`/`MakeDate`. -/
def finishParse (y mo d h mi s ms : Nat) : List Char → Option Nat
  | [] =>
      if 1 ≤ mo ∧ mo ≤ 12 ∧ 1 ≤ d ∧ d ≤ 31 ∧ h ≤ 24 ∧ mi ≤ 59 ∧ s ≤ 59 then
        some (millisOfFields y mo d h mi s ms)
      else none
  | _ => none

/-- Date half of the ISO parser: `YYYY-MM-DD`. -/
def parseDatePart (cs : List Char) : Option (Nat × Nat × Nat × List Char) :=
  (read4 cs).bind fun py =>
  (expectChar '-' py.2).bind fun c1 =>
  (read2 c1).bind fun pmo =>
  (expectChar '-' pmo.2).bind fun c2 =>
  (read2 c2).bind fun pd =>
  some (py.1, pmo.1, pd.1, pd.2)

/-- Time half of the ISO parser: `HH:mm:ss.sss`. -/
def parseTimePart (cs : List Char) : Option (Nat × Nat × Nat × Nat × List Char) :=
  (read2 cs).bind fun ph =>
  (expectChar ':' ph.2).bind fun c4 =>
  (read2 c4).bind fun pmi =>
  (expectChar ':' pmi.2).bind fun c5 =>
  (read2 c5).bind fun ps =>
  (expectChar '.' ps.2).bind fun c6 =>
  (read3 c6).bind fun pms =>
  some (ph.1, pmi.1, ps.1, pms.1, pms.2)

/-- Model of the ECMA-262 date-time string parser (`new Date(s)` /
`Date.parse`) on the `YYYY-MM-DDTHH:mm:ss.sssZ` format. -/
def parseISOList (cs : List Char) : Option Nat :=
  (parseDatePart cs).bind fun pd =>
  (expectChar 'T' pd.2.2.2).bind fun c3 =>
  (parseTimePart c3).bind fun pt =>
  (expectChar 'Z' pt.2.2.2.2).bind fun c7 =>
  finishParse pd.1 pd.2.1 pd.2.2.1 pt.1 pt.2.1 pt.2.2.1 pt.2.2.2.1 c7

/-- Model of `new Date(isoString)` (valid `Date` instants only). -/
def parseISO (s : String) : Option Nat :=
  parseISOList s.data


theorem digit?_digitChar (k : Nat) (h : k < 10) : digit? (Nat.digitChar k) = some k := by
  interval_cases k <;> decide

theorem read2_pad2 (n : Nat) (h : n < 100) (rest : List Char) :
    read2 (pad2 n ++ rest) = some (n, rest) := by
  have e1 := digit?_digitChar (n / 10) (by omega)
  have e2 := digit?_digitChar (n % 10) (by omega)
  simp only [pad2, List.cons_append, List.nil_append, read2, e1, e2]
  have e : n / 10 * 10 + n % 10 = n := by omega
  rw [e]

theorem read3_pad3 (n : Nat) (h : n < 1000) (rest : List Char) :
    read3 (pad3 n ++ rest) = some (n, rest) := by
  have e1 := digit?_digitChar (n / 100) (by omega)
  have e2 := digit?_digitChar (n / 10 % 10) (by omega)
  have e3 := digit?_digitChar (n % 10) (by omega)
  simp only [pad3, List.cons_append, List.nil_append, read3, e1, e2, e3]
  have e : n / 100 * 100 + n / 10 % 10 * 10 + n % 10 = n := by omega
  rw [e]

theorem read4_pad4 (n : Nat) (h : n < 10000) (rest : List Char) :
    read4 (pad4 n ++ rest) = some (n, rest) := by
  have e1 := digit?_digitChar (n / 1000) (by omega)
  have e2 := digit?_digitChar (n / 100 % 10) (by omega)
  have e3 := digit?_digitChar (n / 10 % 10) (by omega)
  have e4 := digit?_digitChar (n % 10) (by omega)
  simp only [pad4, List.cons_append, List.nil_append, read4, e1, e2, e3, e4]
  have e : n / 1000 * 1000 + n / 100 % 10 * 100 + n / 10 % 10 * 10 + n % 10 = n := by omega
  rw [e]

theorem expectChar_cons (c : Char) (rest : List Char) :
    expectChar c (c :: rest) = some rest := by
  simp [expectChar]

theorem parseDatePart_spec (y mo d : Nat) (hy : y < 10000) (hmo : mo < 100)
    (hd : d < 100) (rest : List Char) :
    parseDatePart (pad4 y ++ '-' :: (pad2 mo ++ '-' :: (pad2 d ++ rest))) =
      some (y, mo, d, rest) := by
  simp only [parseDatePart, read4_pad4 y hy, Option.some_bind, expectChar_cons,
    read2_pad2 mo hmo, read2_pad2 d hd]

theorem parseTimePart_spec (h mi s ms : Nat) (hh : h < 100) (hmi : mi < 100)
    (hs : s < 100) (hms : ms < 1000) (rest : List Char) :
    parseTimePart (pad2 h ++ ':' :: (pad2 mi ++ ':' :: (pad2 s ++ '.' :: (pad3 ms ++ rest)))) =
      some (h, mi, s, ms, rest) := by
  simp only [parseTimePart, read2_pad2 h hh, Option.some_bind, expectChar_cons,
    read2_pad2 mi hmi, read2_pad2 s hs, read3_pad3 ms hms]

/-- A valid modelled instant: nonnegative epoch milliseconds whose calendar
year has at most four digits (the range of the plain `toISOString` format,
i.e. every instant up to 9999-12-31T23:59:59.999Z). -/
def validMillis (t : Nat) : Prop :=
  (civilFromDays (t / 86400000)).1 ≤ 9999

instance (t : Nat) : Decidable (validMillis t) := by
  unfold validMillis; infer_instance

/-- The platform `Date` codec round-trips: parsing the printed ISO string of a
valid instant yields the same instant. -/
theorem parseISO_millisToISO (t : Nat) (ht : validMillis t) :
    parseISO (millisToISO t) = some t := by
  rcases hc : civilFromDays (t / 86400000) with ⟨y, mo, d⟩
  obtain ⟨-, hmo1, hmo2, hd1, hd2, hy1970⟩ := daysFromCivil_civilFromDays _ _ _ _ hc
  have hy9999 : y ≤ 9999 := by
    have hv := ht
    unfold validMillis at hv
    rw [hc] at hv
    exact hv
  have hmk := millisOfFields_fieldsOfMillis t y mo d hc
  simp only [parseISO, millisToISO, fieldsOfMillis, hc]
  simp only [parseISOList, List.cons_append, List.append_assoc, List.nil_append]
  rw [parseDatePart_spec y mo d (by omega) (by omega) (by omega)]
  simp only [Option.some_bind, expectChar_cons]
  rw [parseTimePart_spec (t / 3600000 % 24) (t / 60000 % 60) (t / 1000 % 60) (t % 1000)
    (by omega) (by omega) (by omega) (by omega)]
  simp only [Option.some_bind, expectChar_cons, finishParse]
  rw [if_pos (by omega)]
  rw [hmk]


/-! ## Data model (`ChatMessage`, `JournalEntry` from `useJournalStorage.ts`) -/

/-- `sender: 'user' | 'ai'`. -/
inductive Sender where
  | user : Sender
  | ai : Sender
deriving DecidableEq

/-- `ChatMessage`; `timestamp: Date` is modelled as epoch milliseconds. -/
structure ChatMessage where
  id : String
  sender : Sender
  text : String
  timestamp : Nat
deriving DecidableEq

/-- `JournalEntry`; `audioUrl: string | null` is modelled as `Option String`. -/
structure JournalEntry where
  id : String
  title : String
  date : String
  conversation : List ChatMessage
  audioUrl : Option String
  lastMessage : String
deriving DecidableEq, Inhabited

/-- The argument of `addEntry`: `Omit<JournalEntry, 'id' | 'date' | 'lastMessage'>`
(note that it still carries a caller-supplied `title`). -/
structure EntryInput where
  title : String
  conversation : List ChatMessage
  audioUrl : Option String
deriving DecidableEq

/-- The argument of `updateEntry`: `Partial<JournalEntry>`; `none` means the
key is absent from the patch object. -/
structure EntryPatch where
  id : Option String := none
  title : Option String := none
  date : Option String := none
  conversation : Option (List ChatMessage) := none
  audioUrl : Option (Option String) := none
  lastMessage : Option String := none
deriving DecidableEq

/-! ## Pure helpers of the store -/

/-- `text.split(' ')` (JavaScript semantics: single-space separator, empty
fragments kept, `"".split(' ') = [""]`). -/
def splitSpAux : List Char → List Char → List (List Char)
  | [], acc => [acc.reverse]
  | c :: cs, acc =>
      if c = ' ' then acc.reverse :: splitSpAux cs [] else splitSpAux cs (c :: acc)

/-- `String.prototype.split(' ')`. -/
def splitSp (s : String) : List String :=
  (splitSpAux s.data []).map String.mk

/-- `generateTitle` (lines 77–96): first user message's first five
space-separated words, `"..."` appended when truncated; `"New Journal Entry"`
when there is no user message. -/
def generateTitle (conversation : List ChatMessage) : String :=
  match conversation.find? (fun msg => msg.sender == Sender.user) with
  | none => "New Journal Entry"
  | some firstUserMessage =>
      let words := splitSp firstUserMessage.text
      let titleWords := words.take 5
      let title := String.intercalate " " titleWords
      if words.length > 5 then title ++ "..." else title

/-- `getLastMessage` (lines 99–113): the last message's text, truncated to 100
characters plus `"..."` when longer (string length counted in characters). -/
def getLastMessage (conversation : List ChatMessage) : String :=
  match conversation.getLast? with
  | none => ""
  | some lastMessage =>
      if lastMessage.text.length > 100 then
        String.mk (lastMessage.text.data.take 100) ++ "..."
      else lastMessage.text

/-! ## Store operations (lines 116–212)

The React state (`entries`) is passed and returned explicitly; `Date.now()` is
the explicit `now` argument of `addEntry`.  JavaScript `findIndex`'s `-1`
result is modelled as `none`. -/

/-- `Array.prototype.findIndex` (index of the first match, `none` for `-1`). -/
def findIndex (p : JournalEntry → Bool) : List JournalEntry → Option Nat
  | [] => none
  | e :: rest => if p e then some 0 else (findIndex p rest).map (· + 1)

/-- `addEntry` (lines 116–131): fresh id from the clock, derived title and
preview, entry appended; the caller-supplied `entry.title` is overridden. -/
def addEntry (now : Nat) (entry : EntryInput) (entries : List JournalEntry) :
    String × List JournalEntry :=
  let id := Nat.repr now
  let title := generateTitle entry.conversation
  let lastMessage := getLastMessage entry.conversation
  let newEntry : JournalEntry :=
    { id := id, title := title, date := millisToISO now,
      conversation := entry.conversation, audioUrl := entry.audioUrl,
      lastMessage := lastMessage }
  (id, entries ++ [newEntry])

/-- `getEntry` (lines 134–136). -/
def getEntry (id : String) (entries : List JournalEntry) : Option JournalEntry :=
  entries.find? (fun entry => entry.id == id)

/-- The spread `{...entries[i], ...updates}` of `updateEntry`. -/
def applyPatch (e : JournalEntry) (updates : EntryPatch) : JournalEntry :=
  { id := updates.id.getD e.id, title := updates.title.getD e.title,
    date := updates.date.getD e.date,
    conversation := updates.conversation.getD e.conversation,
    audioUrl := updates.audioUrl.getD e.audioUrl,
    lastMessage := updates.lastMessage.getD e.lastMessage }

/-- `updateEntry` (lines 139–160): merge the patch; if the patch carries a
conversation, regenerate `title` and `lastMessage` from it. -/
def updateEntry (id : String) (updates : EntryPatch) (entries : List JournalEntry) :
    Bool × List JournalEntry :=
  match findIndex (fun entry => entry.id == id) entries with
  | none => (false, entries)
  | some i =>
      let merged := applyPatch (entries.getD i default) updates
      let final :=
        match updates.conversation with
        | some c => { merged with title := generateTitle c, lastMessage := getLastMessage c }
        | none => merged
      (true, entries.set i final)

/-- `continueConversation` (lines 163–184). -/
def continueConversation (id : String) (newMessages : List ChatMessage)
    (entries : List JournalEntry) : Bool × List JournalEntry :=
  match findIndex (fun entry => entry.id == id) entries with
  | none => (false, entries)
  | some i =>
      let old := entries.getD i default
      let updatedConversation := old.conversation ++ newMessages
      (true, entries.set i
        { old with conversation := updatedConversation,
                   lastMessage := getLastMessage updatedConversation })

/-- `deleteEntry` (lines 187–197). -/
def deleteEntry (id : String) (entries : List JournalEntry) :
    Bool × List JournalEntry :=
  match findIndex (fun entry => entry.id == id) entries with
  | none => (false, entries)
  | some _ => (true, entries.filter (fun entry => entry.id != id))

/-- The ECMAScript `WhiteSpace`/`LineTerminator` characters removed by
`String.prototype.trim` (the common ones; exotic Unicode space separators
behave identically for our purposes). -/
def isJsWhitespace (c : Char) : Bool :=
  c == ' ' || c == '\t' || c == '\n' || c == '\r' ||
    c.val == 11 || c.val == 12 || c.val == 160 || c.val == 65279

/-- `String.prototype.trim`. -/
def jsTrim (s : String) : String :=
  String.mk (((s.data.dropWhile isJsWhitespace).reverse.dropWhile isJsWhitespace).reverse)

/-- `String.prototype.toLowerCase`, character-wise (ASCII-faithful model). -/
def lowerStr (s : String) : String :=
  String.mk (s.data.map Char.toLower)

/-- `hay.includes(needle)`: substring containment. -/
def containsSub (needle : List Char) : List Char → Bool
  | [] => needle.isEmpty
  | c :: t => needle.isPrefixOf (c :: t) || containsSub needle t

/-- `searchEntries` (lines 200–212): whitespace-only queries return the whole
collection; otherwise keep the entries some of whose messages' lowercased
text contains the lowercased query. -/
def searchEntries (query : String) (entries : List JournalEntry) :
    List JournalEntry :=
  if (jsTrim query).data.isEmpty then entries
  else
    let lowerCaseQuery := lowerStr query
    entries.filter (fun entry =>
      entry.conversation.any (fun message =>
        containsSub lowerCaseQuery.data (lowerStr message.text).data))

/-! ## Operation sequences -/

/-- One mutating call on the store. -/
inductive StoreOp where
  | create : Nat → EntryInput → StoreOp
  | update : String → EntryPatch → StoreOp
  | continueConv : String → List ChatMessage → StoreOp
  | delete : String → StoreOp

/-- Apply one mutating call to the in-memory collection. -/
def applyOp (entries : List JournalEntry) : StoreOp → List JournalEntry
  | .create now input => (addEntry now input entries).2
  | .update id patch => (updateEntry id patch entries).2
  | .continueConv id msgs => (continueConversation id msgs entries).2
  | .delete id => (deleteEntry id entries).2

/-- The collection after a sequence of mutating calls, starting empty. -/
def runOps (ops : List StoreOp) : List JournalEntry :=
  ops.foldl applyOp []

/-! ## Persistence (the two `useEffect` blocks, lines 40–74)

`localStorage` holds one serialized JSON blob per key.  `JSON.parse ∘
JSON.stringify` is the identity on JSON data, so the blob is modelled by its
JSON value; `Date` values serialize through `toISOString` (via `toJSON`) and
are revived by `new Date(msg.timestamp)` in the load effect.  The
deserializer returns `none` where the load effect's mapping code would throw
(non-array data, missing `conversation`); it also rejects entries or
messages with missing or mistyped remaining fields, which the JavaScript
code would instead pass through as malformed records — those inputs are
outside every claim considered here. -/

/-- A JSON value (`audioUrl` may be `null`; all other leaves here are strings). -/
inductive Json where
  | null : Json
  | bool : Bool → Json
  | num : Int → Json
  | str : String → Json
  | arr : List Json → Json
  | obj : List (String × Json) → Json

/-- Property access `j[name]` on a parsed JSON object. -/
def getField (j : Json) (name : String) : Option Json :=
  match j with
  | .obj fields => (fields.find? (fun f => f.1 == name)).map (fun f => f.2)
  | _ => none

/-- The wire form of `sender`. -/
def senderToStr : Sender → String
  | .user => "user"
  | .ai => "ai"

def parseSender : String → Option Sender
  | "user" => some Sender.user
  | "ai" => some Sender.ai
  | _ => none

/-- `JSON.stringify` of one `ChatMessage` (its `Date` via `toISOString`). -/
def serializeMsg (m : ChatMessage) : Json :=
  .obj [("id", .str m.id), ("sender", .str (senderToStr m.sender)),
        ("text", .str m.text), ("timestamp", .str (millisToISO m.timestamp))]

/-- `JSON.stringify` of one `JournalEntry`. -/
def serializeEntry (e : JournalEntry) : Json :=
  .obj [("id", .str e.id), ("title", .str e.title), ("date", .str e.date),
        ("conversation", .arr (e.conversation.map serializeMsg)),
        ("audioUrl", match e.audioUrl with | some u => .str u | none => .null),
        ("lastMessage", .str e.lastMessage)]

/-- The save effect's `JSON.stringify(entries)` (line 70). -/
def serializeEntries (entries : List JournalEntry) : Json :=
  .arr (entries.map serializeEntry)

def asStr : Option Json → Option String
  | some (.str s) => some s
  | _ => none

def asStrOrNull : Option Json → Option (Option String)
  | some (.str s) => some (some s)
  | some .null => some none
  | _ => none

/-- Revive one message: `{...msg, timestamp: new Date(msg.timestamp)}`. -/
def deserializeMsg (j : Json) : Option ChatMessage :=
  (asStr (getField j "id")).bind fun i =>
  (asStr (getField j "sender")).bind fun sd =>
  (parseSender sd).bind fun sender =>
  (asStr (getField j "text")).bind fun tx =>
  (asStr (getField j "timestamp")).bind fun ts =>
  (parseISO ts).map fun time =>
  { id := i, sender := sender, text := tx, timestamp := time }

/-- Revive a conversation array element-wise; `none` as soon as one message
is rejected. -/
def deserializeMsgs : List Json → Option (List ChatMessage)
  | [] => some []
  | j :: rest =>
      (deserializeMsg j).bind fun m =>
      (deserializeMsgs rest).map fun ms => m :: ms

/-- Revive one entry: `{...entry, conversation: entry.conversation.map(...)}`. -/
def deserializeEntry (j : Json) : Option JournalEntry :=
  (match getField j "conversation" with
   | some (.arr msgs) => deserializeMsgs msgs
   | _ => none).bind fun conv =>
  (asStr (getField j "id")).bind fun i =>
  (asStr (getField j "title")).bind fun ttl =>
  (asStr (getField j "date")).bind fun dt =>
  (asStrOrNull (getField j "audioUrl")).bind fun au =>
  (asStr (getField j "lastMessage")).map fun lm =>
  { id := i, title := ttl, date := dt, conversation := conv, audioUrl := au,
    lastMessage := lm }

/-- Revive the entry array element-wise. -/
def deserializeEntryList : List Json → Option (List JournalEntry)
  | [] => some []
  | j :: rest =>
      (deserializeEntry j).bind fun e =>
      (deserializeEntryList rest).map fun es => e :: es

/-- The load effect's `JSON.parse` + revival mapping (lines 45–54). -/
def deserializeEntries (j : Json) : Option (List JournalEntry) :=
  match j with
  | .arr l => deserializeEntryList l
  | _ => none

/-- The load effect (lines 40–65): empty collection when the slot is empty,
and empty collection when parsing/revival fails (the `catch` branch). -/
def load (slot : Option Json) : List JournalEntry :=
  match slot with
  | none => []
  | some j => (deserializeEntries j).getD []

/-- `getStorageKey` (lines 35–37). -/
def storageKey (uid : Option String) : String :=
  "journalEntries_" ++ uid.getD "anonymous"

/-- The save effect (lines 68–74): `localStorage.setItem(key, stringify(entries))`. -/
def saveToStorage (uid : Option String) (entries : List JournalEntry)
    (storage : String → Option Json) : String → Option Json :=
  fun k => if k = storageKey uid then some (serializeEntries entries) else storage k

/-- The load effect reading the current identity's slot. -/
def loadFromStorage (uid : Option String) (storage : String → Option Json) :
    List JournalEntry :=
  load (storage (storageKey uid))

/-- All message timestamps of a collection are valid modelled instants. -/
def validCollection (entries : List JournalEntry) : Prop :=
  ∀ e ∈ entries, ∀ m ∈ e.conversation, validMillis m.timestamp

instance (entries : List JournalEntry) : Decidable (validCollection entries) := by
  unfold validCollection
  infer_instance

theorem deserializeMsg_serializeMsg (m : ChatMessage) (h : validMillis m.timestamp) :
    deserializeMsg (serializeMsg m) = some m := by
  obtain ⟨i, sd, tx, ts⟩ := m
  have hiso := parseISO_millisToISO ts h
  cases sd <;>
    simp [serializeMsg, deserializeMsg, getField, List.find?, asStr, senderToStr,
      parseSender, hiso]

theorem deserializeMsgs_serializeMsg (conv : List ChatMessage)
    (h : ∀ m ∈ conv, validMillis m.timestamp) :
    deserializeMsgs (conv.map serializeMsg) = some conv := by
  induction conv with
  | nil => rfl
  | cons m rest ih =>
      have hm := deserializeMsg_serializeMsg m (h m (by simp))
      have hr := ih (fun x hx => h x (by simp [hx]))
      simp [deserializeMsgs, hm, hr]

theorem deserializeEntry_serializeEntry (e : JournalEntry)
    (h : ∀ m ∈ e.conversation, validMillis m.timestamp) :
    deserializeEntry (serializeEntry e) = some e := by
  obtain ⟨i, ttl, dt, conv, au, lm⟩ := e
  have hconv := deserializeMsgs_serializeMsg conv h
  cases au <;>
    simp [serializeEntry, deserializeEntry, getField, List.find?, asStr, asStrOrNull,
      hconv]

theorem deserializeEntries_serializeEntries (entries : List JournalEntry)
    (h : validCollection entries) :
    deserializeEntries (serializeEntries entries) = some entries := by
  induction entries with
  | nil => rfl
  | cons e rest ih =>
      have he := deserializeEntry_serializeEntry e (h e (by simp))
      have hr := ih (fun x hx => h x (by simp [hx]))
      simp only [serializeEntries, deserializeEntries, List.map_cons] at hr ⊢
      simp [deserializeEntryList, he, hr]

/-! ## Helper lemmas about `findIndex` -/

theorem findIndex_eq_none_iff (p : JournalEntry → Bool) (l : List JournalEntry) :
    findIndex p l = none ↔ ∀ e ∈ l, p e = false := by
  induction l with
  | nil => exact iff_of_true rfl (by simp)
  | cons e rest ih =>
      cases hpe : p e with
      | true => simp [findIndex, hpe]
      | false => simp [findIndex, hpe, ih]

theorem findIndex_lt_length (p : JournalEntry → Bool) (l : List JournalEntry)
    (i : Nat) (h : findIndex p l = some i) : i < l.length := by
  induction l generalizing i with
  | nil => simp [findIndex] at h
  | cons e rest ih =>
      cases hpe : p e with
      | true =>
          simp only [findIndex, hpe, if_true] at h
          cases h
          simp
      | false =>
          simp only [findIndex, hpe, if_false, Bool.false_eq_true] at h
          cases hfr : findIndex p rest with
          | none => rw [hfr] at h; simp at h
          | some j =>
              rw [hfr] at h
              simp at h
              have := ih j hfr
              simp only [List.length_cons]
              omega

theorem getD_mem (l : List JournalEntry) (i : Nat) (h : i < l.length) :
    l.getD i default ∈ l := by
  rw [List.getD_eq_getElem?_getD, List.getElem?_eq_getElem h]
  exact List.getElem_mem h

/-! ## Sample data for concrete instances -/

/-- A user message with short text. -/
def msgHi : ChatMessage :=
  { id := "m1", sender := Sender.user, text := "hi", timestamp := 0 }

/-- A second user message. -/
def msgBye : ChatMessage :=
  { id := "m2", sender := Sender.user, text := "bye", timestamp := 0 }

/-- An assistant message. -/
def msgAi : ChatMessage :=
  { id := "m3", sender := Sender.ai, text := "Tell me more", timestamp := 0 }

/-- A create input whose conversation is `[msgHi]`. -/
def inputHi : EntryInput :=
  { title := "", conversation := [msgHi], audioUrl := none }

/-- A create input whose conversation is `[msgBye]`. -/
def inputBye : EntryInput :=
  { title := "", conversation := [msgBye], audioUrl := none }

/-- An entry with id `"1"` whose only message text is `"abc"`. -/
def entryAbc : JournalEntry :=
  { id := "1", title := "abc", date := "d",
    conversation := [{ id := "m", sender := Sender.user, text := "abc", timestamp := 0 }],
    audioUrl := none, lastMessage := "abc" }

/-- A second entry with id `"2"`. -/
def entryOther : JournalEntry :=
  { id := "2", title := "other", date := "d",
    conversation := [{ id := "m4", sender := Sender.ai, text := "xyz", timestamp := 0 }],
    audioUrl := some "blob:x", lastMessage := "xyz" }

/-! ## C5 -/

/-- C5: `continue(id, newTurns)` on an id not present in the collection
returns failure and leaves the collection unchanged (cardinality and
contents). -/
theorem c5_continue_missing_id (entries : List JournalEntry) (id : String)
    (newMessages : List ChatMessage) (h : ∀ e ∈ entries, e.id ≠ id) :
    continueConversation id newMessages entries = (false, entries) := by
  have hnone : findIndex (fun e => e.id == id) entries = none := by
    rw [findIndex_eq_none_iff]
    intro e he
    simpa using h e he
  simp [continueConversation, hnone]

/-- C5 witness. -/
theorem c5_witness :
    continueConversation "zzz" [msgBye] [entryAbc] = (false, [entryAbc]) :=
  c5_continue_missing_id [entryAbc] "zzz" [msgBye] (by decide)

/-! ## C6 -/

/-- C6: deleting an existing id then `get` on it returns absent; deleting an
id not present returns failure and changes nothing. -/
theorem c6_delete_then_get (entries : List JournalEntry) (id1 id2 : String)
    (h1 : ∃ e ∈ entries, e.id = id1) (h2 : ∀ e ∈ entries, e.id ≠ id2) :
    (deleteEntry id1 entries).1 = true ∧
    getEntry id1 (deleteEntry id1 entries).2 = none ∧
    deleteEntry id2 entries = (false, entries) := by
  have hnone2 : findIndex (fun e => e.id == id2) entries = none := by
    rw [findIndex_eq_none_iff]
    intro e he
    simpa using h2 e he
  have hne1 : findIndex (fun e => e.id == id1) entries ≠ none := by
    intro hall
    rw [findIndex_eq_none_iff] at hall
    obtain ⟨e0, he0, hid⟩ := h1
    have := hall e0 he0
    simp [hid] at this
  cases hfi : findIndex (fun e => e.id == id1) entries with
  | none => exact absurd hfi hne1
  | some i =>
      refine ⟨by simp [deleteEntry, hfi], ?_, by simp [deleteEntry, hnone2]⟩
      simp only [deleteEntry, hfi]
      rw [getEntry, List.find?_eq_none]
      intro x hx
      rw [List.mem_filter] at hx
      simpa using hx.2

/-- C6 witness. -/
theorem c6_witness :
    (deleteEntry "1" [entryAbc, entryOther]).1 = true ∧
    getEntry "1" (deleteEntry "1" [entryAbc, entryOther]).2 = none ∧
    deleteEntry "zzz" [entryAbc, entryOther] = (false, [entryAbc, entryOther]) :=
  c6_delete_then_get [entryAbc, entryOther] "1" "zzz" (by decide) (by decide)

/-! ## C9 -/

/-- C9: `continue` on a present id changes only the addressed entry, and of
that entry only `conversation` (old turns with the new ones appended, in
order) and `lastMessagePreview`; its `id`, `title`, `date` and `audioUrl`
and every other entry are unchanged. -/
theorem c9_continue_frame (entries : List JournalEntry) (id : String)
    (newMessages : List ChatMessage) (i : Nat) (old : JournalEntry)
    (hfi : findIndex (fun e => e.id == id) entries = some i)
    (hold : entries[i]? = some old) :
    (continueConversation id newMessages entries).1 = true ∧
    (continueConversation id newMessages entries).2.length = entries.length ∧
    (∀ j, j ≠ i → (continueConversation id newMessages entries).2[j]? = entries[j]?) ∧
    (continueConversation id newMessages entries).2[i]? =
      some { old with
             conversation := old.conversation ++ newMessages,
             lastMessage := getLastMessage (old.conversation ++ newMessages) } := by
  have hlen := findIndex_lt_length _ _ _ hfi
  have hgetD : entries.getD i default = old := by
    rw [List.getD_eq_getElem?_getD, hold]
    rfl
  simp only [continueConversation, hfi, hgetD]
  refine ⟨by trivial, by simp [List.length_set], ?_, ?_⟩
  · intro j hj
    exact List.getElem?_set_ne (fun he => hj he.symm)
  · exact List.getElem?_set_eq_of_lt _ hlen

/-- C9 witness. -/
theorem c9_witness :
    (continueConversation "1" [msgAi] [entryAbc, entryOther]).1 = true ∧
    (continueConversation "1" [msgAi] [entryAbc, entryOther]).2.length =
      [entryAbc, entryOther].length ∧
    (continueConversation "1" [msgAi] [entryAbc, entryOther]).2[1]? =
      [entryAbc, entryOther][1]? ∧
    (continueConversation "1" [msgAi] [entryAbc, entryOther]).2[0]? =
      some { entryAbc with
             conversation := entryAbc.conversation ++ [msgAi],
             lastMessage := getLastMessage (entryAbc.conversation ++ [msgAi]) } := by
  obtain ⟨h1, h2, h3, h4⟩ :=
    c9_continue_frame [entryAbc, entryOther] "1" [msgAi] 0 entryAbc (by decide) (by decide)
  exact ⟨h1, h2, h3 1 (by decide), h4⟩

/-! ## Invariant preservation over operation sequences -/

/-- Generic preservation of a per-entry invariant along a run. -/
theorem foldl_invariant (Inv : JournalEntry → Prop) (ok : StoreOp → Bool)
    (hstep : ∀ entries op, (∀ e ∈ entries, Inv e) → ok op = true →
      ∀ e ∈ applyOp entries op, Inv e) :
    ∀ (ops : List StoreOp) (entries : List JournalEntry),
      (∀ e ∈ entries, Inv e) → (∀ op ∈ ops, ok op = true) →
      ∀ e ∈ ops.foldl applyOp entries, Inv e := by
  intro ops
  induction ops with
  | nil => intro entries h _; simpa using h
  | cons op rest ih =>
      intro entries h hops
      simp only [List.foldl_cons]
      exact ih _ (hstep _ _ h (hops op (by simp))) (fun o ho => hops o (by simp [ho]))

/-- A patch that never sets `lastMessage` without also supplying a
conversation. -/
def patchKeepsPreview : StoreOp → Bool
  | .update _ p => !p.lastMessage.isSome || p.conversation.isSome
  | _ => true

theorem preview_step (entries : List JournalEntry) (op : StoreOp)
    (hinv : ∀ e ∈ entries, e.lastMessage = getLastMessage e.conversation)
    (hok : patchKeepsPreview op = true) :
    ∀ e ∈ applyOp entries op, e.lastMessage = getLastMessage e.conversation := by
  intro e he
  cases op with
  | create now input =>
      simp only [applyOp, addEntry, List.mem_append] at he
      rcases he with he | he
      · exact hinv e he
      · simp only [List.mem_singleton] at he
        subst he
        rfl
  | update id p =>
      simp only [applyOp, updateEntry] at he
      cases hfi : findIndex (fun x => x.id == id) entries with
      | none => rw [hfi] at he; exact hinv e he
      | some i =>
          rw [hfi] at he
          simp only at he
          rcases List.mem_or_eq_of_mem_set he with he | he
          · exact hinv e he
          · cases hpc : p.conversation with
            | some c =>
                subst he
                simp [hpc, applyPatch]
            | none =>
                have hplm : p.lastMessage = none := by
                  simp only [patchKeepsPreview, hpc, Option.isSome_none,
                    Bool.or_false, Bool.not_eq_eq_eq_not, Bool.not_true] at hok
                  exact Option.not_isSome_iff_eq_none.mp (by simp [hok])
                have hmem := getD_mem entries i (findIndex_lt_length _ _ _ hfi)
                have hold := hinv _ hmem
                subst he
                simp only [hpc, applyPatch, hplm, Option.getD_none]
                exact hold
  | continueConv id msgs =>
      simp only [applyOp, continueConversation] at he
      cases hfi : findIndex (fun x => x.id == id) entries with
      | none => rw [hfi] at he; exact hinv e he
      | some i =>
          rw [hfi] at he
          simp only at he
          rcases List.mem_or_eq_of_mem_set he with he | he
          · exact hinv e he
          · subst he
            rfl
  | delete id =>
      simp only [applyOp, deleteEntry] at he
      cases hfi : findIndex (fun x => x.id == id) entries with
      | none => rw [hfi] at he; exact hinv e he
      | some i =>
          rw [hfi] at he
          simp only at he
          rw [List.mem_filter] at he
          exact hinv e he.1

/-- C4 (amended): after any sequence of operations in which no update patch
sets `lastMessagePreview` without also supplying a conversation, every entry's
`lastMessagePreview` is the derived preview of its conversation (final turn's
text, truncated to 100 characters with a `"..."` marker when longer). -/
theorem c4_preview_invariant (ops : List StoreOp)
    (h : ∀ op ∈ ops, patchKeepsPreview op = true) :
    ∀ e ∈ runOps ops, e.lastMessage = getLastMessage e.conversation :=
  foldl_invariant _ patchKeepsPreview preview_step ops [] (by simp) h

/-- C4 counterexample: an update patch that sets `lastMessagePreview` alone
breaks the invariant, refuting the claim over unrestricted operation
sequences. -/
theorem c4_counterexample :
    ¬ (∀ e ∈ runOps [StoreOp.create 1 inputHi,
          StoreOp.update "1" { lastMessage := some "junk" }],
        e.lastMessage = getLastMessage e.conversation) := by
  decide

/-- C4 witness. -/
theorem c4_witness :
    (∀ op ∈ [StoreOp.create 1 inputHi], patchKeepsPreview op = true) ∧
    ∀ e ∈ runOps [StoreOp.create 1 inputHi],
      e.lastMessage = getLastMessage e.conversation :=
  ⟨by decide, c4_preview_invariant [StoreOp.create 1 inputHi] (by decide)⟩

/-- An operation that never installs an empty conversation. -/
def opKeepsNonempty : StoreOp → Bool
  | .create _ input => !input.conversation.isEmpty
  | .update _ p =>
      match p.conversation with
      | some c => !c.isEmpty
      | none => true
  | _ => true

theorem nonempty_step (entries : List JournalEntry) (op : StoreOp)
    (hinv : ∀ e ∈ entries, e.conversation ≠ [])
    (hok : opKeepsNonempty op = true) :
    ∀ e ∈ applyOp entries op, e.conversation ≠ [] := by
  intro e he
  cases op with
  | create now input =>
      simp only [applyOp, addEntry, List.mem_append] at he
      rcases he with he | he
      · exact hinv e he
      · simp only [List.mem_singleton] at he
        subst he
        simp only [opKeepsNonempty, Bool.not_eq_eq_eq_not, Bool.not_true] at hok
        simpa [List.isEmpty_iff] using hok
  | update id p =>
      simp only [applyOp, updateEntry] at he
      cases hfi : findIndex (fun x => x.id == id) entries with
      | none => rw [hfi] at he; exact hinv e he
      | some i =>
          rw [hfi] at he
          simp only at he
          rcases List.mem_or_eq_of_mem_set he with he | he
          · exact hinv e he
          · cases hpc : p.conversation with
            | some c =>
                subst he
                simp only [opKeepsNonempty, hpc, Bool.not_eq_eq_eq_not,
                  Bool.not_true] at hok
                simpa [hpc, applyPatch, List.isEmpty_iff] using hok
            | none =>
                have hmem := getD_mem entries i (findIndex_lt_length _ _ _ hfi)
                have hold := hinv _ hmem
                subst he
                simp only [hpc, applyPatch, Option.getD_none]
                exact hold
  | continueConv id msgs =>
      simp only [applyOp, continueConversation] at he
      cases hfi : findIndex (fun x => x.id == id) entries with
      | none => rw [hfi] at he; exact hinv e he
      | some i =>
          rw [hfi] at he
          simp only at he
          rcases List.mem_or_eq_of_mem_set he with he | he
          · exact hinv e he
          · have hmem := getD_mem entries i (findIndex_lt_length _ _ _ hfi)
            have hold := hinv _ hmem
            subst he
            simpa using List.append_ne_nil_of_left_ne_nil hold msgs
  | delete id =>
      simp only [applyOp, deleteEntry] at he
      cases hfi : findIndex (fun x => x.id == id) entries with
      | none => rw [hfi] at he; exact hinv e he
      | some i =>
          rw [hfi] at he
          simp only at he
          rw [List.mem_filter] at he
          exact hinv e he.1

/-- C8 (amended): after any sequence of operations in which every create, and
every update that supplies a conversation, supplies a non-empty one, every
entry's conversation is non-empty. -/
theorem c8_nonempty_invariant (ops : List StoreOp)
    (h : ∀ op ∈ ops, opKeepsNonempty op = true) :
    ∀ e ∈ runOps ops, e.conversation ≠ [] :=
  foldl_invariant _ opKeepsNonempty nonempty_step ops [] (by simp) h

/-- C8 counterexample: `create` accepts an empty conversation, so the
unrestricted claim fails right after the first save. -/
theorem c8_counterexample :
    ¬ (∀ e ∈ runOps [StoreOp.create 1
          { title := "", conversation := [], audioUrl := none }],
        e.conversation ≠ []) := by
  decide

/-- C8 witness. -/
theorem c8_witness :
    (∀ op ∈ [StoreOp.create 1 inputHi], opKeepsNonempty op = true) ∧
    ∀ e ∈ runOps [StoreOp.create 1 inputHi], e.conversation ≠ [] :=
  ⟨by decide, c8_nonempty_invariant [StoreOp.create 1 inputHi] (by decide)⟩

/-! ## C1 -/

/-- C1 (amended): when the decimal string of the creation clock is not already
an id in the store — in particular whenever the clock has advanced past all
previous creations — `get` on the id returned by `create` yields an entry
whose conversation is the input, and the id differs from every existing id. -/
theorem c1_create_get (entries : List JournalEntry) (now : Nat) (input : EntryInput)
    (hfresh : ∀ e ∈ entries, e.id ≠ Nat.repr now) :
    (getEntry (addEntry now input entries).1 (addEntry now input entries).2).map
        (fun e => e.conversation) = some input.conversation ∧
    ∀ e ∈ entries, e.id ≠ (addEntry now input entries).1 := by
  constructor
  · simp only [addEntry, getEntry]
    rw [List.find?_append]
    have hnone : entries.find? (fun e => e.id == Nat.repr now) = none := by
      rw [List.find?_eq_none]
      intro x hx
      simpa using hfresh x hx
    rw [hnone]
    simp [List.find?]
  · intro e he
    exact hfresh e he

/-- C1 witness. -/
theorem c1_witness :
    (getEntry (addEntry 7 inputHi [entryAbc]).1 (addEntry 7 inputHi [entryAbc]).2).map
        (fun e => e.conversation) = some inputHi.conversation ∧
    entryAbc.id ≠ (addEntry 7 inputHi [entryAbc]).1 :=
  ⟨(c1_create_get [entryAbc] 7 inputHi (by decide)).1,
   (c1_create_get [entryAbc] 7 inputHi (by decide)).2 entryAbc (by decide)⟩

/-- C1 counterexample: two creates at the same clock millisecond produce the
same id (`Date.now().toString()`), so on such a state `get(create(...))`
returns the older entry and the new id equals an existing id. -/
theorem c1_counterexample :
    ¬ (((getEntry (addEntry 5 inputBye (runOps [StoreOp.create 5 inputHi])).1
            (addEntry 5 inputBye (runOps [StoreOp.create 5 inputHi])).2).map
          (fun e => e.conversation) = some inputBye.conversation) ∧
        ∀ e ∈ runOps [StoreOp.create 5 inputHi],
          e.id ≠ (addEntry 5 inputBye (runOps [StoreOp.create 5 inputHi])).1) := by
  decide

/-! ## C2 -/

/-- C2: saving then loading a collection under any identity key reconstructs
it exactly (timestamps included); loading an empty slot or an unparsable blob
yields the empty collection. -/
theorem c2_persistence_roundtrip (uid : Option String) (storage : String → Option Json)
    (entries : List JournalEntry) (_hne : entries ≠ [])
    (hvalid : validCollection entries) (j : Json)
    (hbad : deserializeEntries j = none) :
    loadFromStorage uid (saveToStorage uid entries storage) = entries ∧
    loadFromStorage uid (fun _ => none) = [] ∧
    load (some j) = [] := by
  refine ⟨?_, rfl, by simp [load, hbad]⟩
  simp [loadFromStorage, saveToStorage, load,
    deserializeEntries_serializeEntries entries hvalid]

/-- C2 witness. -/
theorem c2_witness :
    loadFromStorage (some "u") (saveToStorage (some "u") [entryAbc] (fun _ => none)) =
      [entryAbc] ∧
    loadFromStorage (some "u") (fun _ => none) = [] ∧
    load (some (Json.num 0)) = [] :=
  c2_persistence_roundtrip (some "u") (fun _ => none) [entryAbc] (by decide)
    (by decide) (Json.num 0) (by rfl)

/-! ## C3 -/

/-- C3 (amended): queries that are empty **after trimming whitespace** return
the full collection in order; queries non-empty after trimming return exactly
the entries some of whose turns' text contains the query case-insensitively,
in order; search is deterministic on a fixed state. -/
theorem c3_search_behavior (entries : List JournalEntry) (q1 q2 : String)
    (h1 : (jsTrim q1).data.isEmpty = true)
    (h2 : (jsTrim q2).data.isEmpty = false) :
    searchEntries q1 entries = entries ∧
    searchEntries q2 entries = entries.filter (fun entry =>
      entry.conversation.any (fun message =>
        containsSub (lowerStr q2).data (lowerStr message.text).data)) ∧
    searchEntries q2 entries = searchEntries q2 entries := by
  refine ⟨by simp [searchEntries, h1], by simp [searchEntries, h2], rfl⟩

/-- C3 witness. -/
theorem c3_witness :
    searchEntries "" [entryAbc] = [entryAbc] ∧
    searchEntries "a" [entryAbc] = [entryAbc].filter (fun entry =>
      entry.conversation.any (fun message =>
        containsSub (lowerStr "a").data (lowerStr message.text).data)) ∧
    searchEntries "a" [entryAbc] = searchEntries "a" [entryAbc] :=
  c3_search_behavior [entryAbc] "" "a" (by decide) (by decide)

/-- C3 counterexample: the whitespace-only query `" "` is non-empty, yet the
code returns the whole collection rather than the entries containing `" "`. -/
theorem c3_counterexample :
    ¬ (searchEntries " " [entryAbc] = [entryAbc].filter (fun entry =>
        entry.conversation.any (fun message =>
          containsSub (lowerStr " ").data (lowerStr message.text).data))) := by
  decide

/-! ## C7 -/

/-- The first user turn of the C7 scenario. -/
def msgTired : ChatMessage :=
  { id := "mt", sender := Sender.user, text := "I feel tired", timestamp := 0 }

/-- The C7 scenario's create input. -/
def inputTired : EntryInput :=
  { title := "", conversation := [msgTired], audioUrl := none }

/-- C7: the created entry's title is the first user turn's first five
space-separated words joined by spaces, with `"..."` appended exactly when the
text has more than five words; in the `"I feel tired"` scenario both title and
preview equal `"I feel tired"`. -/
theorem c7_title_derivation (entries : List JournalEntry) (now : Nat)
    (input : EntryInput) (m : ChatMessage)
    (hfind : input.conversation.find? (fun msg => msg.sender == Sender.user) = some m) :
    ((addEntry now input entries).2.getLast?).map (fun e => e.title) =
      some (if (splitSp m.text).length > 5
            then String.intercalate " " ((splitSp m.text).take 5) ++ "..."
            else String.intercalate " " ((splitSp m.text).take 5)) ∧
    ((addEntry 7 inputTired []).2.getLast?).map (fun e => (e.title, e.lastMessage)) =
      some ("I feel tired", "I feel tired") := by
  constructor
  · simp [addEntry, List.getLast?_append, generateTitle, hfind]
  · decide

/-- C7 witness. -/
theorem c7_witness :
    ((addEntry 7 inputTired []).2.getLast?).map (fun e => e.title) =
      some (if (splitSp msgTired.text).length > 5
            then String.intercalate " " ((splitSp msgTired.text).take 5) ++ "..."
            else String.intercalate " " ((splitSp msgTired.text).take 5)) ∧
    ((addEntry 7 inputTired []).2.getLast?).map (fun e => (e.title, e.lastMessage)) =
      some ("I feel tired", "I feel tired") :=
  c7_title_derivation [] 7 inputTired msgTired (by decide)

/-! ## C10 -/

/-- C10: `create` recomputes the title from the conversation and discards any
caller-supplied title; with no user turn the derived title is
`"New Journal Entry"`. -/
theorem c10_caller_title_discarded (entries : List JournalEntry) (now : Nat)
    (conversation : List ChatMessage) (audioUrl : Option String) (t1 t2 : String)
    (conv0 : List ChatMessage)
    (h0 : conv0.find? (fun msg => msg.sender == Sender.user) = none) :
    ((addEntry now { title := t1, conversation := conversation, audioUrl := audioUrl }
        entries).2.getLast?).map (fun e => e.title) = some (generateTitle conversation) ∧
    addEntry now { title := t1, conversation := conversation, audioUrl := audioUrl } entries =
      addEntry now { title := t2, conversation := conversation, audioUrl := audioUrl } entries ∧
    generateTitle conv0 = "New Journal Entry" := by
  refine ⟨?_, rfl, by simp [generateTitle, h0]⟩
  simp [addEntry, List.getLast?_append]

/-- C10 witness. -/
theorem c10_witness :
    ((addEntry 3 { title := "A", conversation := [msgHi], audioUrl := none }
        []).2.getLast?).map (fun e => e.title) = some (generateTitle [msgHi]) ∧
    addEntry 3 { title := "A", conversation := [msgHi], audioUrl := none } [] =
      addEntry 3 { title := "B", conversation := [msgHi], audioUrl := none } [] ∧
    generateTitle [msgAi] = "New Journal Entry" :=
  c10_caller_title_discarded [] 3 [msgHi] none "A" "B" [msgAi] (by decide)

end SoulJournal
